import Mathlib

/-!
Shallow embedding of the Redis 4.0 string-command module
(`src/redis-4.0/src/t_string.c`) and proofs checking the natural-language
specification against it.

Values are byte strings modelled as `List Char`; machine integers
(`long long` / `long` on an LP64 build) are modelled as `Int` with the
explicit bounds `LLONG_MIN`/`LLONG_MAX` where the code checks them.
The key space and the stored objects live in an association list that
stands for the external key → value dictionary (`db`).  Helper functions
of the wider code base that are not part of the sources (`string2ll`,
`tryObjectEncoding`, `createStringObjectFromLongLong`,
`dbUnshareStringValue`, `ld2string`, …) are modelled from the
specification text; each such definition carries a doc comment saying so.
-/

/-- `LLONG_MAX` on the build targeted by the source (64-bit signed). -/
def LLONG_MAX : Int := 9223372036854775807

/-- `LLONG_MIN` on the build targeted by the source (64-bit signed). -/
def LLONG_MIN : Int := -9223372036854775808

/-- `LONG_MAX`: the source targets LP64, where `long` = `long long`. -/
def LONG_MAX : Int := LLONG_MAX

/-- `LONG_MIN` on LP64. -/
def LONG_MIN : Int := LLONG_MIN

/-- `OBJ_SHARED_INTEGERS`: size of the shared small-integer pool. -/
def OBJ_SHARED_INTEGERS : Int := 10000

/-- `OBJ_SHARED_REFCOUNT` (`INT_MAX`): the refcount carried by shared
singleton objects; any value `> 1` marks the object as not exclusively
owned. -/
def OBJ_SHARED_REFCOUNT : Nat := 2147483647

/-- The 512 MiB limit from `checkStringLength` (`512*1024*1024`). -/
def maxStringSize : Int := 536870912

/-- The zero byte used by `sdsgrowzero` / `sdsnewlen(NULL, …)` padding. -/
def zeroChar : Char := Char.ofNat 0

/-- Byte strings: the content of an sds buffer. -/
abbrev Bytes := List Char

/-- ASCII decimal digit test. -/
def isDigitChar (c : Char) : Bool := decide ('0' ≤ c ∧ c ≤ '9')

/-- Numeric value of a digit list (most significant first). -/
def digitsNat (s : Bytes) : Nat :=
  s.foldl (fun a c => a * 10 + (c.toNat - 48)) 0

/-- Fuelled most-significant-first digit rendering of a natural number;
the fuel only needs to dominate the number of digits. -/
def natDigitsAux : Nat → Nat → Bytes
  | 0, _ => []
  | fuel + 1, n =>
    if n = 0 then []
    else natDigitsAux fuel (n / 10) ++ [Char.ofNat (48 + n % 10)]

/-- Decimal text of a natural number. -/
def natToText (n : Nat) : Bytes :=
  if n = 0 then ['0'] else natDigitsAux n n

/-- Decimal text of an integer (used where the source renders a stored
`OBJ_ENCODING_INT` value through `ll2string`). -/
def intToText (n : Int) : Bytes :=
  if n < 0 then '-' :: natToText n.natAbs else natToText n.natAbs

/-- Canonical unsigned decimal: either the literal `"0"` or a nonzero
leading digit followed by digits.  Returns the parsed value. -/
def canonNat : Bytes → Option Nat
  | [] => none
  | ['0'] => some 0
  | c :: cs =>
    if decide ('1' ≤ c ∧ c ≤ '9') ∧ cs.all isDigitChar then
      some (digitsNat (c :: cs))
    else none

/-- Modelled from the spec: `string2ll` (the strict parser behind
`getLongLongFromObject`, not part of the sources) accepts exactly a
canonical signed decimal — no leading zeros except the literal `"0"`,
an optional single leading `'-'`, no leading `'+'` — whose magnitude is
representable as a signed 64-bit integer. -/
def string2ll (s : Bytes) : Option Int :=
  match s with
  | '-' :: rest =>
    match canonNat rest with
    | none => none
    | some n =>
      if n = 0 then none
      else if (n : Int) ≤ 9223372036854775808 then some (-(n : Int)) else none
  | _ =>
    match canonNat s with
    | none => none
    | some n => if (n : Int) ≤ LLONG_MAX then some (n : Int) else none

/-- Physical representation of a string value: `OBJ_ENCODING_INT`
(a machine integer stored in the pointer) or raw bytes. -/
inductive StrVal where
  | intVal (n : Int)
  | rawVal (bs : Bytes)
  deriving DecidableEq, Repr

/-- A string object together with its reference count; `refcount = 1`
means exclusively owned, anything larger means possibly shared. -/
structure StrObj where
  val : StrVal
  refcount : Nat
  deriving DecidableEq, Repr

/-- A stored object: a string object, or a value of some other type
(list/set/hash…), opaque to this module beyond its type tag. -/
inductive RObj where
  | str (o : StrObj)
  | other
  deriving DecidableEq, Repr

/-- A key record: the stored object and an optional absolute expiration
timestamp in milliseconds. -/
structure Entry where
  obj : RObj
  expireAt : Option Int
  deriving DecidableEq, Repr

/-- Keys are byte strings. -/
abbrev Key := Bytes

/-- The external dictionary, modelled as an association list. -/
abbrev Db := List (Key × Entry)

/-- `lookupKeyRead`/`lookupKeyWrite` (lazy expiration is the external
store's concern and outside this module). -/
def lookupKey (db : Db) (k : Key) : Option Entry :=
  (db.find? (fun p => decide (p.1 = k))).map (·.2)

/-- Replace the entry stored at `k`, or append it if absent. -/
def dbSet (db : Db) (k : Key) (e : Entry) : Db :=
  match db with
  | [] => [(k, e)]
  | (k', e') :: t => if k' = k then (k, e) :: t else (k', e') :: dbSet t k e

/-- `dbAdd`: store a fresh key (no expiration). -/
def dbAdd (db : Db) (k : Key) (o : RObj) : Db :=
  dbSet db k ⟨o, none⟩

/-- `dbOverwrite`: replace the value, keeping the expiration. -/
def dbOverwrite (db : Db) (k : Key) (o : RObj) : Db :=
  match lookupKey db k with
  | some e => dbSet db k ⟨o, e.expireAt⟩
  | none => dbSet db k ⟨o, none⟩

/-- `setKey`: overwrite-style assignment — replaces the value and
removes any previous expiration. -/
def setKey (db : Db) (k : Key) (o : RObj) : Db :=
  dbSet db k ⟨o, none⟩

/-- `setExpire`: attach an absolute expiration to an existing key. -/
def setExpireDb (db : Db) (k : Key) (t : Int) : Db :=
  match lookupKey db k with
  | some e => dbSet db k ⟨e.obj, some t⟩
  | none => db

/-- Project the string object out of a lookup result. -/
def getStrObj : Option Entry → Option StrObj
  | some ⟨RObj.str s, _⟩ => some s
  | _ => none

/-- `checkType(c,o,OBJ_STRING)` fires exactly when the looked-up object
exists and is not a string. -/
def isOther : Option Entry → Bool
  | some ⟨RObj.other, _⟩ => true
  | _ => false

/-- `o->encoding == OBJ_ENCODING_INT`. -/
def isIntEncoded : StrObj → Bool
  | ⟨StrVal.intVal _, _⟩ => true
  | ⟨StrVal.rawVal _, _⟩ => false

/-- The logical byte content of a string object (an `OBJ_ENCODING_INT`
object reads as its decimal text, as `getrange`/`strlen` render it). -/
def objBytes : StrObj → Bytes
  | ⟨StrVal.intVal n, _⟩ => intToText n
  | ⟨StrVal.rawVal bs, _⟩ => bs

/-- `stringObjectLen`. -/
def stringObjectLen (o : StrObj) : Nat :=
  (objBytes o).length

/-- Modelled from the spec: `classify` (§4.1, the source calls it through
`tryObjectEncoding`, which is not part of the sources): bytes parse as
`Integer` only if they form a canonical signed decimal within the 64-bit
signed range; a classified integer inside the shared pool `[0, 10000)` is
the process-wide shared singleton (refcount `OBJ_SHARED_REFCOUNT`), one
outside it is freshly owned; anything else stays raw bytes. -/
def classify (bs : Bytes) : StrObj :=
  match string2ll bs with
  | some n =>
    if 0 ≤ n ∧ n < OBJ_SHARED_INTEGERS then ⟨StrVal.intVal n, OBJ_SHARED_REFCOUNT⟩
    else ⟨StrVal.intVal n, 1⟩
  | none => ⟨StrVal.rawVal bs, 1⟩

/-- Modelled from the spec: §4.2 — on the slow path of the integer
increment the code must "allocate a new owned `Integer` value and replace
the key's reference"; the body of `createStringObjectFromLongLong` is not
part of the sources, only this call site in `incrDecrCommand`. -/
def createStringObjectFromLongLong (v : Int) : StrObj :=
  ⟨StrVal.intVal v, 1⟩

/-- Modelled from the spec: `unshare` (§4.1) — `dbUnshareStringValue`
(not part of the sources) yields an exclusively-owned, raw-encoded copy
with identical byte content whenever the current object is aliased or
not `RawBytes`-mutable, and returns the object itself when it is already
an exclusively owned buffer. -/
def unshareStringValue : StrObj → StrObj
  | ⟨StrVal.intVal n, _⟩ => ⟨StrVal.rawVal (intToText n), 1⟩
  | ⟨StrVal.rawVal bs, rc⟩ => if rc ≠ 1 then ⟨StrVal.rawVal bs, 1⟩ else ⟨StrVal.rawVal bs, rc⟩

/-- `checkStringLength`: `true` means the 512 MiB limit is exceeded
(the C helper then replies with the `StringTooLong` error). -/
def checkStringLength (size : Int) : Bool :=
  decide (size > maxStringSize)

/-- `sdsgrowzero`: extend to `n` bytes padding with zero bytes,
preserving prior content (no-op if already that long). -/
def growZero (bs : Bytes) (n : Nat) : Bytes :=
  if n ≤ bs.length then bs else bs ++ List.replicate (n - bs.length) zeroChar

/-- `memcpy(buf+off, v, len(v))` on a buffer of length `≥ off + len v`. -/
def writeAt (bs : Bytes) (off : Nat) (v : Bytes) : Bytes :=
  bs.take off ++ v ++ bs.drop (off + v.length)

/-- Modelled from the spec: the float counter works on arbitrary-precision
decimals (§4.2), standing in for the source's `long double`.  A value is a
pair `(m, e)` denoting `m / 10 ^ e`. -/
abbrev LDec := Int × Nat

/-- Modelled from the spec: decimal parsing behind
`getLongDoubleFromObject` (§4.2, not part of the sources): an optional
sign, digits with an optional fraction part (at least one digit overall),
and an optional exponent part. -/
def parseLongDouble (s : Bytes) : Option LDec :=
  let (sign, s1) :=
    match s with
    | '-' :: r => (true, r)
    | '+' :: r => (false, r)
    | _ => (false, s)
  let (ip, s2) := s1.span isDigitChar
  let (fp, s3) :=
    match s2 with
    | '.' :: r => r.span isDigitChar
    | _ => (([] : Bytes), s2)
  if ip = [] ∧ fp = [] then none
  else
    let finish : Int → Option LDec := fun ex =>
      let m0 : Int := (digitsNat (ip ++ fp) : Int)
      let m : Int := if sign then -m0 else m0
      let e0 : Int := ex - (fp.length : Int)
      some (if 0 ≤ e0 then (m * 10 ^ e0.toNat, 0) else (m, (-e0).toNat))
    match s3 with
    | [] => finish 0
    | c :: r =>
      if c = 'e' ∨ c = 'E' then
        let (es, r1) :=
          match r with
          | '-' :: t => (true, t)
          | '+' :: t => (false, t)
          | _ => (false, r)
        let (ed, r2) := r1.span isDigitChar
        if ed = [] ∨ r2 ≠ [] then none
        else finish (if es then -(digitsNat ed : Int) else (digitsNat ed : Int))
      else none

/-- Exact sum of two decimals. -/
def addLDec : LDec → LDec → LDec
  | (m1, e1), (m2, e2) =>
    let e := max e1 e2
    (m1 * 10 ^ (e - e1) + m2 * 10 ^ (e - e2), e)

/-- Modelled from the spec: with arbitrary-precision decimals (§4.2) a
sum of two finite parsed values is always finite, so the source's
`isnan(value) || isinf(value)` guard can never fire in this model. -/
def ldecIsNanOrInf (_ : LDec) : Bool := false

/-- Drop trailing decimal zeros from the fraction part. -/
def normLDec : Int → Nat → Int × Nat
  | m, 0 => (m, 0)
  | m, e + 1 => if m % 10 = 0 then normLDec (m / 10) e else (m, e + 1)

/-- Modelled from the spec: `ld2string` in human-friendly mode (called by
`createStringObjectFromLongDouble(value,1)`, not part of the sources)
renders the decimal in plain positional notation and strips trailing
zeros after the decimal point, yielding the canonical shortest text. -/
def ld2string (x : LDec) : Bytes :=
  match normLDec x.1 x.2 with
  | (m, 0) => intToText m
  | (m, e + 1) =>
    let e := e + 1
    let ds0 := natToText m.natAbs
    let ds := if ds0.length ≤ e then List.replicate (e + 1 - ds0.length) '0' ++ ds0 else ds0
    (if m < 0 then ['-'] else []) ++ ds.take (ds.length - e) ++ '.' :: ds.drop (ds.length - e)

/-- `getLongDoubleFromObject` lifted to an optional object: an absent key
reads as 0, an `OBJ_ENCODING_INT` object as its integer, raw bytes are
parsed as a decimal. -/
def getLongDoubleFromObject : Option StrObj → Option LDec
  | none => some (0, 0)
  | some ⟨StrVal.intVal n, _⟩ => some (n, 0)
  | some ⟨StrVal.rawVal bs, _⟩ => parseLongDouble bs

/-- `getLongLongFromObject` lifted to an optional object: an absent key
reads as 0, an `OBJ_ENCODING_INT` object as its integer, raw bytes go
through the strict `string2ll` parser. -/
def getLongLongFromObject : Option StrObj → Option Int
  | none => some 0
  | some ⟨StrVal.intVal n, _⟩ => some n
  | some ⟨StrVal.rawVal bs, _⟩ => string2ll bs

/-! ## The commands (`t_string.c`) -/

/-- Outcome of `setGenericCommand`. -/
inductive SetRes where
  | expireNotInteger
  | invalidExpire
  | abortNotMet
  | ok
  deriving DecidableEq, Repr

/-- `setGenericCommand` (lines 78–116): implements SET, SETNX, SETEX,
PSETEX.  The expire argument, when present, is validated (integer parse,
strictly positive, unit conversion to milliseconds) before the NX/XX
existence condition is evaluated; on success the value replaces the key
wholesale (clearing any previous TTL) and the requested TTL, if any, is
installed. -/
def setGenericCommand (db : Db) (nx xx : Bool) (k : Key) (val : StrObj)
    (expire : Option Bytes) (unitSeconds : Bool) (now : Int) : SetRes × Db :=
  let expChk : Except SetRes (Option Int) :=
    match expire with
    | none => Except.ok none
    | some eb =>
      match string2ll eb with
      | none => Except.error SetRes.expireNotInteger
      | some ms0 =>
        if ms0 ≤ 0 then Except.error SetRes.invalidExpire
        else Except.ok (some (if unitSeconds then ms0 * 1000 else ms0))
  match expChk with
  | Except.error r => (r, db)
  | Except.ok msOpt =>
    if (nx ∧ (lookupKey db k).isSome) ∨ (xx ∧ (lookupKey db k).isNone) then
      (SetRes.abortNotMet, db)
    else
      let db1 := setKey db k (RObj.str val)
      match msOpt with
      | some ms => (SetRes.ok, setExpireDb db1 k (now + ms))
      | none => (SetRes.ok, db1)

/-- Outcome of GET / the read half of GETSET. -/
inductive GetRes where
  | wrongType
  | notFound
  | val (bs : Bytes)
  deriving DecidableEq, Repr

/-- `getGenericCommand` (lines 204–219). -/
def getGenericCommand (db : Db) (k : Key) : GetRes :=
  match lookupKey db k with
  | none => GetRes.notFound
  | some e =>
    match e.obj with
    | RObj.other => GetRes.wrongType
    | RObj.str o => GetRes.val (objBytes o)

/-- `getsetCommand` (lines 232–242): read (with type check), then
overwrite unconditionally through `setKey`, clearing any previous TTL. -/
def getsetCommand (db : Db) (k : Key) (v : Bytes) : GetRes × Db :=
  match getGenericCommand db k with
  | GetRes.wrongType => (GetRes.wrongType, db)
  | r => (r, setKey db k (RObj.str (classify v)))

/-- Outcome of SETRANGE. -/
inductive SetrangeRes where
  | invalidOffset
  | wrongType
  | tooLong
  | len (n : Nat)
  deriving DecidableEq, Repr

/-- `setrangeCommand` (lines 247–314). -/
def setrangeCommand (db : Db) (k : Key) (offset : Int) (v : Bytes) :
    SetrangeRes × Db :=
  if offset < 0 then (SetrangeRes.invalidOffset, db)
  else
    match lookupKey db k with
    | none =>
      if v.length = 0 then (SetrangeRes.len 0, db)
      else if checkStringLength (offset + v.length) then (SetrangeRes.tooLong, db)
      else
        let buf := List.replicate (offset.toNat + v.length) zeroChar
        let bs := writeAt buf offset.toNat v
        (SetrangeRes.len bs.length, dbAdd db k (RObj.str ⟨StrVal.rawVal bs, 1⟩))
    | some e =>
      match e.obj with
      | RObj.other => (SetrangeRes.wrongType, db)
      | RObj.str o =>
        if v.length = 0 then (SetrangeRes.len (stringObjectLen o), db)
        else if checkStringLength (offset + v.length) then (SetrangeRes.tooLong, db)
        else
          let o1 := unshareStringValue o
          let bs := writeAt (growZero (objBytes o1) (offset.toNat + v.length)) offset.toNat v
          (SetrangeRes.len bs.length, dbOverwrite db k (RObj.str ⟨StrVal.rawVal bs, 1⟩))

/-- Outcome of GETRANGE. -/
inductive GetrangeRes where
  | wrongType
  | bulk (bs : Bytes)
  deriving DecidableEq, Repr

/-- `getrangeCommand` (lines 319–365): negative-index translation,
clamping, and the inclusive slice.  An absent key replies with the empty
bulk. -/
def getrangeCommand (db : Db) (k : Key) (start0 end0 : Int) : GetrangeRes :=
  match lookupKey db k with
  | none => GetrangeRes.bulk []
  | some e =>
    match e.obj with
    | RObj.other => GetrangeRes.wrongType
    | RObj.str o =>
      let str := objBytes o
      let L : Int := (str.length : Int)
      if start0 < 0 ∧ end0 < 0 ∧ start0 > end0 then GetrangeRes.bulk []
      else
        let s1 := if start0 < 0 then L + start0 else start0
        let e1 := if end0 < 0 then L + end0 else end0
        let s2 := if s1 < 0 then 0 else s1
        let e2 := if e1 < 0 then 0 else e1
        let e3 := if e2 ≥ L then L - 1 else e2
        if s2 > e3 ∨ L = 0 then GetrangeRes.bulk []
        else GetrangeRes.bulk ((str.drop s2.toNat).take (e3 - s2 + 1).toNat)

/-- `mgetCommand` (lines 370–387): one reply per key, in order; absent
keys and keys of the wrong type both yield the null marker, never an
error. -/
def mgetCommand (db : Db) (ks : List Key) : List (Option Bytes) :=
  ks.map fun k =>
    match lookupKey db k with
    | none => none
    | some e =>
      match e.obj with
      | RObj.other => none
      | RObj.str o => some (objBytes o)

/-- Outcome of MSET / MSETNX. -/
inductive MsetRes where
  | wrongArgCount
  | nxAbort
  | okMset
  | okMsetnx
  deriving DecidableEq, Repr

/-- Group the interleaved `key value key value …` arguments. -/
def toPairs : List Bytes → List (Bytes × Bytes)
  | k :: v :: rest => (k, v) :: toPairs rest
  | _ => []

/-- `msetGenericCommand` (lines 392–427): `args` are the arguments after
the command name, so the C test `(c->argc % 2) == 0` reads
`(args.length + 1) % 2 = 0`.  Under `nx`, every key is probed first and
one busy key aborts the whole batch. -/
def msetGenericCommand (db : Db) (nx : Bool) (args : List Bytes) : MsetRes × Db :=
  if (args.length + 1) % 2 = 0 then (MsetRes.wrongArgCount, db)
  else
    let pairs := toPairs args
    if nx ∧ pairs.any (fun p => (lookupKey db p.1).isSome) then (MsetRes.nxAbort, db)
    else
      (if nx then MsetRes.okMsetnx else MsetRes.okMset,
       pairs.foldl (fun d q => setKey d q.1 (RObj.str (classify q.2))) db)

/-- Outcome of INCR/DECR/INCRBY/DECRBY. -/
inductive IncrRes where
  | wrongType
  | notInteger
  | overflow
  | ok (v : Int) (inPlace : Bool)
  deriving DecidableEq, Repr

/-- `incrDecrCommand` (lines 446–487): the stored value (0 if absent)
must read as a 64-bit integer; overflow is detected from the signs and
bounds before the addition; the in-place fast path requires an
exclusively owned (`refcount == 1`), `OBJ_ENCODING_INT` object and a
result outside the shared pool and within `long` range, otherwise a new
object replaces the key's reference (`dbOverwrite` keeps the TTL). -/
def incrDecrCommand (db : Db) (k : Key) (incr : Int) : IncrRes × Db :=
  if isOther (lookupKey db k) then (IncrRes.wrongType, db)
  else
    match getLongLongFromObject (getStrObj (lookupKey db k)) with
    | none => (IncrRes.notInteger, db)
    | some value =>
      if (incr < 0 ∧ value < 0 ∧ incr < LLONG_MIN - value) ∨
         (incr > 0 ∧ value > 0 ∧ incr > LLONG_MAX - value) then
        (IncrRes.overflow, db)
      else
        match getStrObj (lookupKey db k) with
        | some obj =>
          if obj.refcount = 1 ∧ isIntEncoded obj = true ∧
             (value + incr < 0 ∨ OBJ_SHARED_INTEGERS ≤ value + incr) ∧
             LONG_MIN ≤ value + incr ∧ value + incr ≤ LONG_MAX then
            (IncrRes.ok (value + incr) true,
             dbOverwrite db k (RObj.str ⟨StrVal.intVal (value + incr), 1⟩))
          else
            (IncrRes.ok (value + incr) false,
             dbOverwrite db k (RObj.str (createStringObjectFromLongLong (value + incr))))
        | none =>
          (IncrRes.ok (value + incr) false,
           dbAdd db k (RObj.str (createStringObjectFromLongLong (value + incr))))

/-- `incrbyCommand` (lines 506–511): parse the delta, then the generic
increment. -/
def incrbyCommand (db : Db) (k : Key) (dArg : Bytes) : IncrRes × Db :=
  match string2ll dArg with
  | none => (IncrRes.notInteger, db)
  | some d => incrDecrCommand db k d

/-- `decrbyCommand` (lines 516–521): parse the delta and negate it. -/
def decrbyCommand (db : Db) (k : Key) (dArg : Bytes) : IncrRes × Db :=
  match string2ll dArg with
  | none => (IncrRes.notInteger, db)
  | some d => incrDecrCommand db k (-d)

/-- Outcome of INCRBYFLOAT. -/
inductive IncrFloatRes where
  | wrongType
  | notAFloat
  | nanOrInf
  | ok (t : Bytes)
  deriving DecidableEq, Repr

/-- Full result of INCRBYFLOAT: reply, new store, and the replication
rewrite (the source rewrites the logged command into
`SET <key> <result text>`). -/
structure IncrFloatOut where
  res : IncrFloatRes
  db : Db
  rewrite : Option (Key × Bytes)
  deriving DecidableEq, Repr

/-- `incrbyfloatCommand` (lines 526–564): read both operands as decimals,
reject a NaN/Infinity sum, store the rendered text as a fresh raw value
(`dbOverwrite` keeps the TTL), and rewrite the replicated form of the
command into an unconditional `SET key <text>`. -/
def incrbyfloatCommand (db : Db) (k : Key) (incrArg : Bytes) : IncrFloatOut :=
  if isOther (lookupKey db k) then ⟨IncrFloatRes.wrongType, db, none⟩
  else
    match getLongDoubleFromObject (getStrObj (lookupKey db k)) with
    | none => ⟨IncrFloatRes.notAFloat, db, none⟩
    | some value =>
      match parseLongDouble incrArg with
      | none => ⟨IncrFloatRes.notAFloat, db, none⟩
      | some incr =>
        if ldecIsNanOrInf (addLDec value incr) then ⟨IncrFloatRes.nanOrInf, db, none⟩
        else
          ⟨IncrFloatRes.ok (ld2string (addLDec value incr)),
           if (lookupKey db k).isSome then
             dbOverwrite db k (RObj.str ⟨StrVal.rawVal (ld2string (addLDec value incr)), 1⟩)
           else
             dbAdd db k (RObj.str ⟨StrVal.rawVal (ld2string (addLDec value incr)), 1⟩),
           some (k, ld2string (addLDec value incr))⟩

/-- Outcome of APPEND. -/
inductive AppendRes where
  | wrongType
  | tooLong
  | len (n : Nat)
  deriving DecidableEq, Repr

/-- `appendCommand` (lines 569–602): an absent key stores the (encoded)
argument directly; a present key is length-checked, unshared and
concatenated in place. -/
def appendCommand (db : Db) (k : Key) (v : Bytes) : AppendRes × Db :=
  match lookupKey db k with
  | none =>
    let obj := classify v
    (AppendRes.len (stringObjectLen obj), dbAdd db k (RObj.str obj))
  | some e =>
    match e.obj with
    | RObj.other => (AppendRes.wrongType, db)
    | RObj.str o =>
      let totlen : Int := (stringObjectLen o : Int) + (v.length : Int)
      if checkStringLength totlen then (AppendRes.tooLong, db)
      else
        let o1 := unshareStringValue o
        let bs := objBytes o1 ++ v
        (AppendRes.len bs.length, dbOverwrite db k (RObj.str ⟨StrVal.rawVal bs, 1⟩))

/-- Outcome of STRLEN. -/
inductive StrlenRes where
  | wrongType
  | len (n : Nat)
  deriving DecidableEq, Repr

/-- `strlenCommand` (lines 607–613). -/
def strlenCommand (db : Db) (k : Key) : StrlenRes :=
  match lookupKey db k with
  | none => StrlenRes.len 0
  | some e =>
    match e.obj with
    | RObj.other => StrlenRes.wrongType
    | RObj.str o => StrlenRes.len (stringObjectLen o)

/-! ## The command surface as one dispatcher -/

/-- The logical operation surface of the module (§6). -/
inductive Cmd where
  | setC (nx xx : Bool) (k : Key) (v : Bytes) (expire : Option Bytes) (unitSeconds : Bool)
  | setnxC (k : Key) (v : Bytes)
  | setexC (k : Key) (sec : Bytes) (v : Bytes)
  | psetexC (k : Key) (ms : Bytes) (v : Bytes)
  | getC (k : Key)
  | getsetC (k : Key) (v : Bytes)
  | setrangeC (k : Key) (off : Int) (v : Bytes)
  | getrangeC (k : Key) (s e : Int)
  | mgetC (ks : List Key)
  | msetC (args : List Bytes)
  | msetnxC (args : List Bytes)
  | incrC (k : Key)
  | decrC (k : Key)
  | incrbyC (k : Key) (d : Bytes)
  | decrbyC (k : Key) (d : Bytes)
  | incrbyfloatC (k : Key) (d : Bytes)
  | appendC (k : Key) (v : Bytes)
  | strlenC (k : Key)
  deriving DecidableEq, Repr

/-- The per-command structured side-effect bundle: the new store and the
optional replication rewrite. -/
structure CmdOut where
  db : Db
  rewrite : Option (Key × Bytes)
  deriving DecidableEq, Repr

/-- One step of the command orchestrator: dispatch a command against the
store, as the source's command table does onto the functions above. -/
def runCmd (now : Int) (db : Db) : Cmd → CmdOut
  | Cmd.setC nx xx k v ex u => ⟨(setGenericCommand db nx xx k (classify v) ex u now).2, none⟩
  | Cmd.setnxC k v => ⟨(setGenericCommand db true false k (classify v) none true now).2, none⟩
  | Cmd.setexC k s v => ⟨(setGenericCommand db false false k (classify v) (some s) true now).2, none⟩
  | Cmd.psetexC k s v => ⟨(setGenericCommand db false false k (classify v) (some s) false now).2, none⟩
  | Cmd.getC _ => ⟨db, none⟩
  | Cmd.getsetC k v => ⟨(getsetCommand db k v).2, none⟩
  | Cmd.setrangeC k o v => ⟨(setrangeCommand db k o v).2, none⟩
  | Cmd.getrangeC _ _ _ => ⟨db, none⟩
  | Cmd.mgetC _ => ⟨db, none⟩
  | Cmd.msetC a => ⟨(msetGenericCommand db false a).2, none⟩
  | Cmd.msetnxC a => ⟨(msetGenericCommand db true a).2, none⟩
  | Cmd.incrC k => ⟨(incrDecrCommand db k 1).2, none⟩
  | Cmd.decrC k => ⟨(incrDecrCommand db k (-1)).2, none⟩
  | Cmd.incrbyC k d => ⟨(incrbyCommand db k d).2, none⟩
  | Cmd.decrbyC k d => ⟨(decrbyCommand db k d).2, none⟩
  | Cmd.incrbyfloatC k d =>
    let out := incrbyfloatCommand db k d
    ⟨out.db, out.rewrite⟩
  | Cmd.appendC k v => ⟨(appendCommand db k v).2, none⟩
  | Cmd.strlenC _ => ⟨db, none⟩

/-! ## Store lemmas -/

theorem lookupKey_cons (a : Key) (b : Entry) (t : Db) (k : Key) :
    lookupKey ((a, b) :: t) k = if a = k then some b else lookupKey t k := by
  by_cases h : a = k <;> simp [lookupKey, List.find?, h]

theorem lookup_dbSet_self (db : Db) (k : Key) (e : Entry) :
    lookupKey (dbSet db k e) k = some e := by
  induction db with
  | nil => simp [dbSet, lookupKey_cons]
  | cons hd t ih =>
    obtain ⟨k', e'⟩ := hd
    by_cases hk : k' = k
    · subst hk
      simp [dbSet, lookupKey_cons]
    · simp [dbSet, hk, lookupKey_cons, ih]

theorem lookup_dbSet_ne (db : Db) (k k' : Key) (e : Entry) (h : k' ≠ k) :
    lookupKey (dbSet db k e) k' = lookupKey db k' := by
  have h' : k ≠ k' := fun hh => h hh.symm
  induction db with
  | nil => simp [dbSet, lookupKey_cons, lookupKey, h']
  | cons hd t ih =>
    obtain ⟨a, b⟩ := hd
    by_cases hk : a = k
    · subst hk
      simp [dbSet, lookupKey_cons, h']
    · simp [dbSet, hk, lookupKey_cons, ih]

theorem unshare_refcount (o : StrObj) : (unshareStringValue o).refcount = 1 := by
  obtain ⟨v, rc⟩ := o
  cases v with
  | intVal n => rfl
  | rawVal bs =>
    by_cases h : rc = 1 <;> simp [unshareStringValue, h]

theorem objBytes_unshare (o : StrObj) :
    objBytes (unshareStringValue o) = objBytes o := by
  obtain ⟨v, rc⟩ := o
  cases v with
  | intVal n => rfl
  | rawVal bs =>
    by_cases h : rc = 1 <;> simp [unshareStringValue, objBytes, h]

/-! ## Digit-count and parser-range lemmas -/

theorem natDigitsAux_length_le :
    ∀ (fuel m d : Nat), m < 10 ^ d → (natDigitsAux fuel m).length ≤ d := by
  intro fuel
  induction fuel with
  | zero => intro m d _; simp [natDigitsAux]
  | succ f ih =>
    intro m d hm
    unfold natDigitsAux
    by_cases h0 : m = 0
    · simp [h0]
    · rw [if_neg h0]
      have hd : d ≠ 0 := by
        intro hd0
        rw [hd0] at hm
        omega
      have hdiv : m / 10 < 10 ^ (d - 1) := by
        have h10 : (10 : Nat) ^ d = 10 ^ (d - 1) * 10 := by
          conv_lhs => rw [show d = (d - 1) + 1 by omega]
          rw [pow_succ]
        rw [Nat.div_lt_iff_lt_mul (by omega), ← h10]
        exact hm
      have := ih (m / 10) (d - 1) hdiv
      simp only [List.length_append, List.length_cons, List.length_nil]
      omega

theorem natToText_length_le (m d : Nat) (hm : m < 10 ^ d) (hd : 1 ≤ d) :
    (natToText m).length ≤ d := by
  unfold natToText
  by_cases h0 : m = 0
  · simp [h0]; omega
  · rw [if_neg h0]
    exact natDigitsAux_length_le m m d hm

theorem intToText_length_le (n : Int) (h : n.natAbs ≤ 18446744073709551616) :
    (intToText n).length ≤ 21 := by
  have hlt : n.natAbs < 10 ^ 20 := by
    calc n.natAbs ≤ 18446744073709551616 := h
    _ < 10 ^ 20 := by norm_num
  have hn := natToText_length_le n.natAbs 20 hlt (by omega)
  unfold intToText
  split
  · simp only [List.length_cons]
    omega
  · omega

theorem string2ll_range (s : Bytes) (n : Int) (h : string2ll s = some n) :
    n.natAbs ≤ 9223372036854775808 := by
  unfold string2ll at h
  split at h
  · rcases hc : canonNat _ with _ | m
    · rw [hc] at h; simp at h
    · rw [hc] at h
      dsimp only at h
      split at h
      · simp at h
      · split at h
        · simp only [Option.some.injEq] at h
          subst h
          simp only [Int.natAbs_neg]
          omega
        · simp at h
  · rcases hc : canonNat s with _ | m
    · rw [hc] at h; simp at h
    · rw [hc] at h
      dsimp only at h
      split at h
      · simp only [Option.some.injEq] at h
        subst h
        simp only [LLONG_MAX] at *
        omega
      · simp at h

/-! ## The 512 MiB store invariant -/

/-- Healthy string objects: raw values within the 512 MiB bound and
integer-encoded values within the machine-integer magnitudes the module
can create (`|n| ≤ 2^64`, which renders to at most 21 bytes of text). -/
def strObjOk : StrObj → Prop
  | ⟨StrVal.intVal n, _⟩ => n.natAbs ≤ 18446744073709551616
  | ⟨StrVal.rawVal bs, _⟩ => (bs.length : Int) ≤ maxStringSize

/-- Every string object stored in the db is healthy. -/
def dbOk (db : Db) : Prop :=
  ∀ p ∈ db, ∀ o, p.2.obj = RObj.str o → strObjOk o

theorem strObjOk_len (o : StrObj) (h : strObjOk o) :
    (stringObjectLen o : Int) ≤ maxStringSize := by
  rcases o with ⟨val, rc⟩
  cases val with
  | intVal n =>
    have := intToText_length_le n h
    unfold stringObjectLen objBytes
    simp only [maxStringSize]
    omega
  | rawVal bs => exact h

theorem mem_dbSet (db : Db) (k : Key) (e : Entry) (p : Key × Entry)
    (h : p ∈ dbSet db k e) : p ∈ db ∨ p = (k, e) := by
  induction db with
  | nil => simpa [dbSet] using h
  | cons hd t ih =>
    obtain ⟨a, b⟩ := hd
    unfold dbSet at h
    split at h
    · rcases List.mem_cons.mp h with rfl | hm
      · right; rfl
      · left; exact List.mem_cons_of_mem _ hm
    · rcases List.mem_cons.mp h with rfl | hm
      · left; exact List.mem_cons_self _ _
      · rcases ih hm with hm' | hm'
        · left; exact List.mem_cons_of_mem _ hm'
        · right; exact hm'

theorem dbOk_dbSet (db : Db) (k : Key) (e : Entry) (hdb : dbOk db)
    (he : ∀ o, e.obj = RObj.str o → strObjOk o) : dbOk (dbSet db k e) := by
  intro p hp o hobj
  rcases mem_dbSet db k e p hp with hm | rfl
  · exact hdb p hm o hobj
  · exact he o hobj

theorem dbOk_lookup (db : Db) (k : Key) (e : Entry) (hdb : dbOk db)
    (h : lookupKey db k = some e) : ∀ o, e.obj = RObj.str o → strObjOk o := by
  unfold lookupKey at h
  rcases hf : db.find? (fun p => decide (p.1 = k)) with _ | p
  · rw [hf] at h; simp at h
  · rw [hf] at h
    simp at h
    subst h
    exact hdb p (List.mem_of_find?_eq_some hf)

theorem dbOk_setKey (db : Db) (k : Key) (o : StrObj) (hdb : dbOk db)
    (ho : strObjOk o) : dbOk (setKey db k (RObj.str o)) := by
  apply dbOk_dbSet db k _ hdb
  intro o' hobj
  cases hobj
  exact ho

theorem dbOk_dbAdd (db : Db) (k : Key) (o : StrObj) (hdb : dbOk db)
    (ho : strObjOk o) : dbOk (dbAdd db k (RObj.str o)) :=
  dbOk_setKey db k o hdb ho

theorem dbOk_dbOverwrite (db : Db) (k : Key) (o : StrObj) (hdb : dbOk db)
    (ho : strObjOk o) : dbOk (dbOverwrite db k (RObj.str o)) := by
  unfold dbOverwrite
  split
  · apply dbOk_dbSet db k _ hdb
    intro o' hobj
    cases hobj
    exact ho
  · apply dbOk_dbSet db k _ hdb
    intro o' hobj
    cases hobj
    exact ho

theorem dbOk_setExpireDb (db : Db) (k : Key) (t : Int) (hdb : dbOk db) :
    dbOk (setExpireDb db k t) := by
  unfold setExpireDb
  split
  next e he =>
    apply dbOk_dbSet db k _ hdb
    intro o hobj
    exact dbOk_lookup db k e hdb he o hobj
  next => exact hdb

theorem strObjOk_classify (v : Bytes) (h : (v.length : Int) ≤ maxStringSize) :
    strObjOk (classify v) := by
  unfold classify
  rcases hp : string2ll v with _ | n
  · exact h
  · have hr := string2ll_range v n hp
    dsimp only
    split
    · simp only [strObjOk]
      omega
    · simp only [strObjOk]
      omega

theorem getLongLong_bound (db : Db) (k : Key) (value : Int) (hdb : dbOk db)
    (h : getLongLongFromObject (getStrObj (lookupKey db k)) = some value) :
    value.natAbs ≤ 18446744073709551616 := by
  rcases hlk : lookupKey db k with _ | e
  · rw [hlk] at h
    simp only [getStrObj, getLongLongFromObject, Option.some.injEq] at h
    omega
  · rw [hlk] at h
    have hok := dbOk_lookup db k e hdb hlk
    rcases e with ⟨obj, ex⟩
    rcases obj with o | _
    · rcases o with ⟨val, rc⟩
      cases val with
      | intVal n =>
        simp only [getStrObj, getLongLongFromObject, Option.some.injEq] at h
        subst h
        exact hok ⟨StrVal.intVal n, rc⟩ rfl
      | rawVal bs =>
        simp only [getStrObj, getLongLongFromObject] at h
        have := string2ll_range bs value h
        omega
    · simp only [getStrObj, getLongLongFromObject, Option.some.injEq] at h
      omega

theorem toPairs_mem_snd :
    ∀ (args : List Bytes) (q : Bytes × Bytes), q ∈ toPairs args → q.2 ∈ args
  | [], q, h => by simp [toPairs] at h
  | [_], q, h => by simp [toPairs] at h
  | k :: v :: rest, q, h => by
    unfold toPairs at h
    rcases List.mem_cons.mp h with rfl | hm
    · exact List.mem_cons_of_mem _ (List.mem_cons_self _ _)
    · exact List.mem_cons_of_mem _ (List.mem_cons_of_mem _ (toPairs_mem_snd rest q hm))

/-! ## Buffer lemmas -/

theorem growZero_length (bs : Bytes) (n : Nat) :
    (growZero bs n).length = max bs.length n := by
  unfold growZero
  split
  · omega
  · simp only [List.length_append, List.length_replicate]
    omega

theorem growZero_getElem_lt (bs : Bytes) (n i : Nat) (h : i < bs.length) :
    (growZero bs n)[i]? = bs[i]? := by
  unfold growZero
  split
  · rfl
  · rw [List.getElem?_append_left h]

theorem growZero_getElem_pad (bs : Bytes) (n i : Nat) (h1 : bs.length ≤ i)
    (h2 : i < n) : (growZero bs n)[i]? = some zeroChar := by
  unfold growZero
  split
  · omega
  · rw [List.getElem?_append_right h1, List.getElem?_replicate, if_pos (by omega)]

theorem writeAt_length (bs v : Bytes) (off : Nat) (h : off + v.length ≤ bs.length) :
    (writeAt bs off v).length = bs.length := by
  unfold writeAt
  simp only [List.length_append, List.length_take, List.length_drop]
  omega

theorem writeAt_getElem_lt (bs v : Bytes) (off i : Nat) (h : i < off)
    (hb : off ≤ bs.length) : (writeAt bs off v)[i]? = bs[i]? := by
  unfold writeAt
  rw [List.append_assoc,
    List.getElem?_append_left (by simp only [List.length_take]; omega),
    List.getElem?_take_of_lt h]

theorem writeAt_getElem_mid (bs v : Bytes) (off j : Nat) (hj : j < v.length)
    (hb : off ≤ bs.length) : (writeAt bs off v)[off + j]? = v[j]? := by
  unfold writeAt
  rw [List.append_assoc,
    List.getElem?_append_right (by simp only [List.length_take]; omega)]
  have he : off + j - (List.take off bs).length = j := by
    simp only [List.length_take]; omega
  rw [he, List.getElem?_append_left hj]

theorem writeAt_getElem_ge (bs v : Bytes) (off i : Nat)
    (hi : off + v.length ≤ i) (hb : off ≤ bs.length) :
    (writeAt bs off v)[i]? = bs[i]? := by
  unfold writeAt
  rw [List.append_assoc,
    List.getElem?_append_right (by simp only [List.length_take]; omega),
    List.getElem?_append_right (by simp only [List.length_take]; omega),
    List.getElem?_drop]
  congr 1
  simp only [List.length_take]
  omega

theorem writeAt_replicate_zero (off : Nat) (v : Bytes) :
    writeAt (List.replicate (off + v.length) zeroChar) off v =
      List.replicate off zeroChar ++ v := by
  unfold writeAt
  rw [List.take_replicate, List.drop_replicate]
  simp only [Nat.min_eq_left (Nat.le_add_right off v.length), Nat.sub_self,
    List.replicate, List.append_nil]

theorem lookup_dbOverwrite_self (db : Db) (k : Key) (e : Entry) (o : RObj)
    (h : lookupKey db k = some e) :
    lookupKey (dbOverwrite db k o) k = some ⟨o, e.expireAt⟩ := by
  unfold dbOverwrite
  rw [h]
  exact lookup_dbSet_self db k _

theorem lookup_dbAdd_self (db : Db) (k : Key) (o : RObj) :
    lookupKey (dbAdd db k o) k = some ⟨o, none⟩ :=
  lookup_dbSet_self db k _

/-! ## Preservation of the store invariant, command by command -/

theorem dbOk_setGeneric (db : Db) (nx xx : Bool) (k : Key) (val : StrObj)
    (ex : Option Bytes) (u : Bool) (now : Int) (hdb : dbOk db)
    (hval : strObjOk val) :
    dbOk (setGenericCommand db nx xx k val ex u now).2 := by
  unfold setGenericCommand
  dsimp only
  split
  · exact hdb
  · split
    · exact hdb
    · split
      · exact dbOk_setExpireDb _ _ _ (dbOk_setKey _ _ _ hdb hval)
      · exact dbOk_setKey _ _ _ hdb hval

theorem dbOk_getset (db : Db) (k : Key) (v : Bytes) (hdb : dbOk db)
    (hv : (v.length : Int) ≤ maxStringSize) :
    dbOk (getsetCommand db k v).2 := by
  unfold getsetCommand
  split
  · exact hdb
  all_goals exact dbOk_setKey _ _ _ hdb (strObjOk_classify v hv)

theorem dbOk_setrange (db : Db) (k : Key) (off : Int) (v : Bytes)
    (hdb : dbOk db) : dbOk (setrangeCommand db k off v).2 := by
  unfold setrangeCommand
  split
  · exact hdb
  next hoffneg =>
    split
    next hlk =>
      split
      · exact hdb
      · split
        · exact hdb
        next hchk =>
          apply dbOk_dbAdd _ _ _ hdb
          simp only [strObjOk]
          rw [writeAt_length _ _ _ (by simp)]
          simp only [List.length_replicate]
          simp only [checkStringLength, decide_eq_true_eq, not_lt] at hchk
          omega
    next e hlk =>
      split
      · exact hdb
      next o hobj =>
        split
        · exact hdb
        · split
          · exact hdb
          next hchk =>
            apply dbOk_dbOverwrite _ _ _ hdb
            have hlen := strObjOk_len o (dbOk_lookup db k e hdb hlk o hobj)
            have hfits : off.toNat + v.length ≤
                (growZero (objBytes (unshareStringValue o)) (off.toNat + v.length)).length := by
              rw [growZero_length]
              omega
            simp only [strObjOk]
            rw [writeAt_length _ _ _ hfits, growZero_length, objBytes_unshare]
            simp only [checkStringLength, decide_eq_true_eq, not_lt] at hchk
            have : (objBytes o).length = stringObjectLen o := rfl
            omega

theorem dbOk_msetFold :
    ∀ (pairs : List (Bytes × Bytes)) (db : Db), dbOk db →
      (∀ q ∈ pairs, ((q.2.length : Int) ≤ maxStringSize)) →
      dbOk (pairs.foldl (fun d q => setKey d q.1 (RObj.str (classify q.2))) db) := by
  intro pairs
  induction pairs with
  | nil => intro db hdb _; exact hdb
  | cons p t ih =>
    intro db hdb hq
    exact ih _ (dbOk_setKey _ _ _ hdb
        (strObjOk_classify p.2 (hq p (List.mem_cons_self p t))))
      (fun q hqt => hq q (List.mem_cons_of_mem p hqt))

theorem dbOk_mset (db : Db) (nx : Bool) (args : List Bytes) (hdb : dbOk db)
    (hargs : ∀ a ∈ args, (a.length : Int) ≤ maxStringSize) :
    dbOk (msetGenericCommand db nx args).2 := by
  unfold msetGenericCommand
  split
  · exact hdb
  · dsimp only
    split
    · exact hdb
    · exact dbOk_msetFold (toPairs args) db hdb
        (fun q hq => hargs q.2 (toPairs_mem_snd args q hq))

theorem dbOk_incrDecr (db : Db) (k : Key) (incr : Int) (hdb : dbOk db)
    (hincr : incr.natAbs ≤ 9223372036854775808) :
    dbOk (incrDecrCommand db k incr).2 := by
  unfold incrDecrCommand
  split
  · exact hdb
  · split
    · exact hdb
    next value hval =>
      split
      · exact hdb
      next hnoov =>
        have hvb := getLongLong_bound db k value hdb hval
        split
        next obj heq =>
          split
          next hc =>
            apply dbOk_dbOverwrite _ _ _ hdb
            simp only [strObjOk]
            simp only [LONG_MIN, LONG_MAX, LLONG_MIN, LLONG_MAX] at hc
            omega
          next =>
            apply dbOk_dbOverwrite _ _ _ hdb
            simp only [createStringObjectFromLongLong, strObjOk]
            simp only [LLONG_MIN, LLONG_MAX, not_or, not_and, not_lt] at hnoov
            omega
        next =>
          apply dbOk_dbAdd _ _ _ hdb
          simp only [createStringObjectFromLongLong, strObjOk]
          simp only [LLONG_MIN, LLONG_MAX, not_or, not_and, not_lt] at hnoov
          omega

theorem dbOk_append (db : Db) (k : Key) (v : Bytes) (hdb : dbOk db)
    (hv : (v.length : Int) ≤ maxStringSize) :
    dbOk (appendCommand db k v).2 := by
  unfold appendCommand
  split
  next hlk =>
    exact dbOk_dbAdd _ _ _ hdb (strObjOk_classify v hv)
  next e hlk =>
    split
    · exact hdb
    next o hobj =>
      dsimp only
      split
      · exact hdb
      next hchk =>
        apply dbOk_dbOverwrite _ _ _ hdb
        simp only [strObjOk, List.length_append, objBytes_unshare]
        simp only [checkStringLength, decide_eq_true_eq, not_lt] at hchk
        have : (objBytes o).length = stringObjectLen o := rfl
        omega

/-! ## C7: the 512 MiB bound -/

/-- A byte string one byte longer than the 512 MiB limit. -/
def bigVal : Bytes := List.replicate 536870913 'a'

theorem string2ll_bigVal : string2ll bigVal = none := by decide

/-- Arguments within the protocol's 512 MiB bound: every value argument
a command stores verbatim is at most 512 MiB long. -/
def cmdArgsOk : Cmd → Prop
  | Cmd.setC _ _ _ v _ _ => (v.length : Int) ≤ maxStringSize
  | Cmd.setnxC _ v => (v.length : Int) ≤ maxStringSize
  | Cmd.setexC _ _ v => (v.length : Int) ≤ maxStringSize
  | Cmd.psetexC _ _ v => (v.length : Int) ≤ maxStringSize
  | Cmd.getsetC _ v => (v.length : Int) ≤ maxStringSize
  | Cmd.msetC args => ∀ a ∈ args, (a.length : Int) ≤ maxStringSize
  | Cmd.msetnxC args => ∀ a ∈ args, (a.length : Int) ≤ maxStringSize
  | Cmd.appendC _ v => (v.length : Int) ≤ maxStringSize
  | _ => True

/-- C7 counterexample: the generic SET path performs no length check at
all — it stores a 536870913-byte value, which exceeds 512 MiB, and
reports plain success rather than the string-too-long error. -/
theorem set_stores_oversize_value_counterexample :
    maxStringSize < ((bigVal).length : Int) ∧
    setGenericCommand [] false false "k".toList (classify bigVal) none true 0 =
      (SetRes.ok, [("k".toList, ⟨RObj.str ⟨StrVal.rawVal bigVal, 1⟩, none⟩)]) := by
  constructor
  · have hl : (bigVal.length : Int) = 536870913 := by
      rw [bigVal, List.length_replicate]
      norm_num
    rw [hl]
    decide
  · have hclass : classify bigVal = ⟨StrVal.rawVal bigVal, 1⟩ := by
      unfold classify
      rw [string2ll_bigVal]
    rw [hclass]
    rfl

/-- C7 (amended): among the listed operations only SETRANGE and APPEND
on a present key enforce the 512 MiB bound, rejecting with the
string-too-long error before any state change; SET/GETSET/MSET and
APPEND on an absent key store their argument unchecked, so the bound on
stored values holds under the external protocol guarantee that every
value argument is at most 512 MiB — under that guarantee every string
operation except INCRBYFLOAT (whose arithmetic is modelled separately)
preserves the invariant that all stored raw values are at most 512 MiB
(and all integer-encoded values are machine integers). -/
theorem string_length_bound_enforcement :
    (∀ (db : Db) (k : Key) (off : Int) (v : Bytes), 0 ≤ off → v ≠ [] →
      checkStringLength (off + (v.length : Int)) = true →
      (lookupKey db k = none →
        setrangeCommand db k off v = (SetrangeRes.tooLong, db)) ∧
      (∀ e o, lookupKey db k = some e → e.obj = RObj.str o →
        setrangeCommand db k off v = (SetrangeRes.tooLong, db))) ∧
    (∀ (db : Db) (k : Key) (v : Bytes) (e : Entry) (o : StrObj),
      lookupKey db k = some e → e.obj = RObj.str o →
      checkStringLength ((stringObjectLen o : Int) + (v.length : Int)) = true →
      appendCommand db k v = (AppendRes.tooLong, db)) ∧
    (∀ (now : Int) (db : Db) (c : Cmd), dbOk db → cmdArgsOk c →
      (∀ k d, c ≠ Cmd.incrbyfloatC k d) →
      dbOk (runCmd now db c).db) := by
  refine ⟨?_, ?_, ?_⟩
  · intro db k off v hoff hv hchk
    have hvlen : ¬ v.length = 0 := by
      simpa using fun hh => hv (List.length_eq_zero.mp hh)
    constructor
    · intro hlk
      unfold setrangeCommand
      rw [if_neg (not_lt.mpr hoff), hlk]
      dsimp only
      rw [if_neg hvlen, hchk]
      rfl
    · intro e o hlk hobj
      unfold setrangeCommand
      rw [if_neg (not_lt.mpr hoff), hlk]
      dsimp only
      rw [hobj]
      dsimp only
      rw [if_neg hvlen, hchk]
      rfl
  · intro db k v e o hlk hobj hchk
    unfold appendCommand
    rw [hlk]
    dsimp only
    rw [hobj]
    dsimp only
    rw [hchk]
    rfl
  · intro now db c hdb hargs hnotf
    cases c with
    | setC nx xx k v ex u =>
      exact dbOk_setGeneric db nx xx k (classify v) ex u now hdb
        (strObjOk_classify v hargs)
    | setnxC k v =>
      exact dbOk_setGeneric db true false k (classify v) none true now hdb
        (strObjOk_classify v hargs)
    | setexC k s v =>
      exact dbOk_setGeneric db false false k (classify v) (some s) true now hdb
        (strObjOk_classify v hargs)
    | psetexC k s v =>
      exact dbOk_setGeneric db false false k (classify v) (some s) false now hdb
        (strObjOk_classify v hargs)
    | getC k => exact hdb
    | getsetC k v => exact dbOk_getset db k v hdb hargs
    | setrangeC k off v => exact dbOk_setrange db k off v hdb
    | getrangeC k s e => exact hdb
    | mgetC ks => exact hdb
    | msetC args => exact dbOk_mset db false args hdb hargs
    | msetnxC args => exact dbOk_mset db true args hdb hargs
    | incrC k => exact dbOk_incrDecr db k 1 hdb (by decide)
    | decrC k => exact dbOk_incrDecr db k (-1) hdb (by decide)
    | incrbyC k d =>
      show dbOk (incrbyCommand db k d).2
      unfold incrbyCommand
      split
      · exact hdb
      next d' hd' => exact dbOk_incrDecr db k d' hdb (string2ll_range d d' hd')
    | decrbyC k d =>
      show dbOk (decrbyCommand db k d).2
      unfold decrbyCommand
      split
      · exact hdb
      next d' hd' =>
        refine dbOk_incrDecr db k (-d') hdb ?_
        rw [Int.natAbs_neg]
        exact string2ll_range d d' hd'
    | incrbyfloatC k d => exact absurd rfl (hnotf k d)
    | appendC k v => exact dbOk_append db k v hdb hargs
    | strlenC k => exact hdb

/-- A store holding the oversize value (as plain SET can create it). -/
def dbBig : Db :=
  [("k".toList, ⟨RObj.str ⟨StrVal.rawVal bigVal, 1⟩, none⟩)]

/-- Witness for C7: SETRANGE past the bound rejected on an empty store,
APPEND to an oversize value rejected, and the invariant preserved by a
concrete SET on the empty store. -/
theorem string_length_bound_enforcement_witness :
    setrangeCommand [] "k".toList 536870912 ['a'] = (SetrangeRes.tooLong, []) ∧
    appendCommand dbBig "k".toList "x".toList = (AppendRes.tooLong, dbBig) ∧
    dbOk (runCmd 0 [] (Cmd.setC false false "k".toList "v".toList none true)).db :=
  ⟨(string_length_bound_enforcement.1 [] "k".toList 536870912 ['a']
      (by decide) (by decide) (by decide)).1 rfl,
   string_length_bound_enforcement.2.1 dbBig "k".toList "x".toList
      ⟨RObj.str ⟨StrVal.rawVal bigVal, 1⟩, none⟩ ⟨StrVal.rawVal bigVal, 1⟩ rfl rfl
      (by norm_num [stringObjectLen, objBytes, bigVal, checkStringLength, maxStringSize]),
   string_length_bound_enforcement.2.2 0 []
      (Cmd.setC false false "k".toList "v".toList none true)
      (fun p hp => absurd hp (List.not_mem_nil p))
      (by show ((("v".toList).length : Int) ≤ maxStringSize); decide)
      (fun k d h => Cmd.noConfusion h)⟩

/-! ## C1: shared values are never mutated in place -/

/-- C1: the in-place storage-reuse path of the integer increment is
taken only when the current object is exclusively owned (`refcount = 1`),
`OBJ_ENCODING_INT`-encoded, and the sum lies outside the shared-integer
pool `[0, 10000)`; in every other successful case the key's reference is
replaced by a newly created owned value (refcount 1); and SETRANGE
obtains an exclusively-owned copy (`unshare`) of an existing value and
writes its bytes into that copy. -/
theorem no_inplace_mutation_of_shared_values :
    (∀ (db : Db) (k : Key) (incr v : Int) (db' : Db),
      incrDecrCommand db k incr = (IncrRes.ok v true, db') →
      ∃ o, getStrObj (lookupKey db k) = some o ∧ o.refcount = 1 ∧
        isIntEncoded o = true ∧ (v < 0 ∨ OBJ_SHARED_INTEGERS ≤ v)) ∧
    (∀ (db : Db) (k : Key) (incr v : Int) (db' : Db),
      incrDecrCommand db k incr = (IncrRes.ok v false, db') →
      (createStringObjectFromLongLong v).refcount = 1 ∧
      ((getStrObj (lookupKey db k)).isSome = true →
        db' = dbOverwrite db k (RObj.str (createStringObjectFromLongLong v))) ∧
      ((getStrObj (lookupKey db k)).isSome = false →
        db' = dbAdd db k (RObj.str (createStringObjectFromLongLong v)))) ∧
    (∀ (db : Db) (k : Key) (off : Int) (data : Bytes) (e : Entry) (o : StrObj),
      lookupKey db k = some e → e.obj = RObj.str o → 0 ≤ off → data ≠ [] →
      checkStringLength (off + (data.length : Int)) = false →
      (unshareStringValue o).refcount = 1 ∧
      (setrangeCommand db k off data).2 =
        dbOverwrite db k (RObj.str ⟨StrVal.rawVal
          (writeAt (growZero (objBytes (unshareStringValue o)) (off.toNat + data.length))
            off.toNat data), 1⟩)) := by
  refine ⟨?_, ?_, ?_⟩
  · intro db k incr v db' h
    unfold incrDecrCommand at h
    split at h
    · simp at h
    · split at h
      · simp at h
      · split at h
        · simp at h
        · split at h
          next obj heq =>
            split at h
            next hc =>
              simp only [Prod.mk.injEq, IncrRes.ok.injEq] at h
              exact ⟨obj, heq, hc.1, hc.2.1, h.1.1 ▸ hc.2.2.1⟩
            next => simp at h
          next => simp at h
  · intro db k incr v db' h
    unfold incrDecrCommand at h
    split at h
    · simp at h
    · split at h
      · simp at h
      · split at h
        · simp at h
        · split at h
          next obj heq =>
            split at h
            next => simp at h
            next =>
              simp only [Prod.mk.injEq, IncrRes.ok.injEq] at h
              refine ⟨rfl, fun _ => ?_, fun hs => ?_⟩
              · rw [← h.1.1, ← h.2]
              · rw [heq] at hs
                simp at hs
          next heq =>
            simp only [Prod.mk.injEq, IncrRes.ok.injEq] at h
            refine ⟨rfl, fun hs => ?_, fun _ => ?_⟩
            · rw [heq] at hs
              simp at hs
            · rw [← h.1.1, ← h.2]
  · intro db k off data e o hlk hobj hoff hv hchk
    have hvlen : ¬ data.length = 0 := by
      simpa using fun hh => hv (List.length_eq_zero.mp hh)
    refine ⟨unshare_refcount o, ?_⟩
    unfold setrangeCommand
    rw [if_neg (not_lt.mpr hoff), hlk]
    dsimp only
    rw [hobj]
    dsimp only
    rw [if_neg hvlen, hchk]
    rfl

/-- Fixture: a key holding an exclusively-owned integer object outside
the shared pool. -/
def dbOwned : Db :=
  [("k".toList, ⟨RObj.str ⟨StrVal.intVal 20000, 1⟩, none⟩)]

/-- Fixture: a key holding a possibly-shared (refcount 2) raw value. -/
def dbSharedRaw : Db :=
  [("k".toList, ⟨RObj.str ⟨StrVal.rawVal "ab".toList, 2⟩, some 7⟩)]

/-- Witness for C1: the in-place path taken on an owned out-of-pool
integer, the replacement path taken on an absent key, and SETRANGE
writing into the unshared copy of a shared raw value. -/
theorem no_inplace_mutation_of_shared_values_witness :
    (∃ o, getStrObj (lookupKey dbOwned "k".toList) = some o ∧ o.refcount = 1 ∧
      isIntEncoded o = true ∧ ((20001 : Int) < 0 ∨ OBJ_SHARED_INTEGERS ≤ 20001)) ∧
    (createStringObjectFromLongLong 1).refcount = 1 ∧
    ((unshareStringValue ⟨StrVal.rawVal "ab".toList, 2⟩).refcount = 1 ∧
      (setrangeCommand dbSharedRaw "k".toList 1 "z".toList).2 =
        dbOverwrite dbSharedRaw "k".toList (RObj.str ⟨StrVal.rawVal
          (writeAt (growZero (objBytes (unshareStringValue ⟨StrVal.rawVal "ab".toList, 2⟩))
            (1 + 1)) 1 "z".toList), 1⟩)) :=
  ⟨no_inplace_mutation_of_shared_values.1 dbOwned "k".toList 1 20001
      [("k".toList, ⟨RObj.str ⟨StrVal.intVal 20001, 1⟩, none⟩)] (by decide),
   (no_inplace_mutation_of_shared_values.2.1 [] "k".toList 1 1
      [("k".toList, ⟨RObj.str ⟨StrVal.intVal 1, 1⟩, none⟩)] (by decide)).1,
   no_inplace_mutation_of_shared_values.2.2 dbSharedRaw "k".toList 1 "z".toList
      ⟨RObj.str ⟨StrVal.rawVal "ab".toList, 2⟩, some 7⟩ ⟨StrVal.rawVal "ab".toList, 2⟩
      (by decide) (by decide) (by decide) (by decide) (by decide)⟩

/-! ## C2: overflow detection in INCR/DECR/INCRBY/DECRBY -/

/-- A key holding the decimal text of the largest signed 64-bit integer,
with a TTL attached so that "TTL unchanged" is visible in the store. -/
def dbMaxInt : Db :=
  [("k".toList, ⟨RObj.str ⟨StrVal.rawVal "9223372036854775807".toList, 1⟩, some 99⟩)]

/-- C2: for every stored integer value `v` and delta `d`, the generic
increment flags overflow exactly when `v + d` leaves the signed 64-bit
range — the sign/bound test is evaluated before the addition is committed
— and on overflow the store (value, encoding and TTL) is returned
untouched; in particular INCR on a key holding the text
`"9223372036854775807"` fails with the overflow error and leaves the
store unchanged. -/
theorem incrDecr_overflow_checked_before_addition :
    (∀ (db : Db) (k : Key) (incr v : Int),
      getLongLongFromObject (getStrObj (lookupKey db k)) = some v →
      isOther (lookupKey db k) = false →
      LLONG_MIN ≤ v → v ≤ LLONG_MAX → LLONG_MIN ≤ incr → incr ≤ LLONG_MAX →
      ((incrDecrCommand db k incr).1 = IncrRes.overflow ↔
        ¬(LLONG_MIN ≤ v + incr ∧ v + incr ≤ LLONG_MAX)) ∧
      ((incrDecrCommand db k incr).1 = IncrRes.overflow →
        (incrDecrCommand db k incr).2 = db)) ∧
    (incrDecrCommand dbMaxInt "k".toList 1).1 = IncrRes.overflow ∧
    (incrDecrCommand dbMaxInt "k".toList 1).2 = dbMaxInt := by
  refine ⟨?_, by decide, by decide⟩
  intro db k incr v hv hoth h1 h2 h3 h4
  unfold incrDecrCommand
  rw [hoth, hv]
  simp only [Bool.false_eq_true, if_false]
  by_cases hc :
      (incr < 0 ∧ v < 0 ∧ incr < LLONG_MIN - v) ∨
      (incr > 0 ∧ v > 0 ∧ incr > LLONG_MAX - v)
  · rw [if_pos hc]
    refine ⟨⟨fun _ => ?_, fun _ => rfl⟩, fun _ => rfl⟩
    simp only [LLONG_MIN, LLONG_MAX] at *
    omega
  · rw [if_neg hc]
    have hrange : LLONG_MIN ≤ v + incr ∧ v + incr ≤ LLONG_MAX := by
      simp only [LLONG_MIN, LLONG_MAX] at *
      omega
    cases hgs : getStrObj (lookupKey db k) with
    | none =>
      simp only []
      exact ⟨by simp [hrange], by simp⟩
    | some obj =>
      simp only []
      constructor
      · split <;> simp [hrange]
      · split <;> simp

/-! ## C10: expire validation strictly precedes the NX/XX condition -/

/-- A store holding the key `"k"` (used to show the conditional reply is
not produced even when the NX condition would fire). -/
def dbOneKey : Db :=
  [("k".toList, ⟨RObj.str ⟨StrVal.rawVal "v".toList, 1⟩, some 5⟩)]

/-- C10: in the generic SET path, a present expire argument is parsed and
validated before the NX/XX existence condition is even consulted: a
non-integer expire yields the integer-parse error and a non-positive one
the invalid-expire error, in both cases with the store (hence any
existing TTL) unchanged and never the conditional-not-met reply,
whatever the flags and whatever the key's state. -/
theorem setGeneric_expire_checked_before_nx_xx :
    ∀ (db : Db) (nx xx : Bool) (k : Key) (val : StrObj) (eb : Bytes)
      (u : Bool) (now : Int),
      (string2ll eb = none →
        setGenericCommand db nx xx k val (some eb) u now =
          (SetRes.expireNotInteger, db)) ∧
      (∀ ms, string2ll eb = some ms → ms ≤ 0 →
        setGenericCommand db nx xx k val (some eb) u now =
          (SetRes.invalidExpire, db)) := by
  intro db nx xx k val eb u now
  constructor
  · intro hp
    unfold setGenericCommand
    dsimp only
    rw [hp]
  · intro ms hp hms
    unfold setGenericCommand
    dsimp only
    rw [hp]
    simp only [if_pos hms]

/-- Witness for C10: with `"k"` present, the NX flag set and the expire
text `"0"`, plain SET replies invalid-expire (not the NX abort) and
leaves the store, including the TTL of `"k"`, unchanged. -/
theorem setGeneric_expire_checked_before_nx_xx_witness :
    setGenericCommand dbOneKey true false "k".toList ⟨StrVal.rawVal "w".toList, 1⟩
        (some "0".toList) true 1000 = (SetRes.invalidExpire, dbOneKey) :=
  (setGeneric_expire_checked_before_nx_xx dbOneKey true false "k".toList
      ⟨StrVal.rawVal "w".toList, 1⟩ "0".toList true 1000).2 0 (by decide) (by decide)

/-! ## C5: SETRANGE case analysis -/

/-- A store holding the two-byte string `"ab"`. -/
def dbAB : Db :=
  [("k".toList, ⟨RObj.str ⟨StrVal.rawVal "ab".toList, 1⟩, none⟩)]

/-- C5 counterexample: with the key present, empty data and an offset
that already exceeds the 512 MiB bound (so `offset + len(data) >
512 MiB`), SETRANGE does not fail with the string-too-long error as the
claim's case order demands — the present-value/empty-data short-circuit
fires first and returns the current length with the store unchanged. -/
theorem setrange_emptydata_beats_lengthcheck_counterexample :
    checkStringLength ((536870913 : Int) + ((([] : Bytes)).length : Int)) = true ∧
    setrangeCommand dbAB "k".toList 536870913 [] = (SetrangeRes.len 2, dbAB) ∧
    (setrangeCommand dbAB "k".toList 536870913 []).1 ≠ SetrangeRes.tooLong := by
  decide

/-- C5 (amended: the empty-data short-circuits precede the length
check): SETRANGE with a negative offset fails with the invalid-offset
error; with the key absent and data empty it returns 0 without creating
the key, and with the key present and data empty it returns the current
length with the store unchanged — in both cases even when
`offset + len(data)` exceeds 512 MiB; with non-empty data whose end
would pass 512 MiB it fails with the string-too-long error before any
state change; with the key absent it creates a value that is `offset`
zero bytes followed by the data; with the key present it zero-extends to
at least `offset + len(data)` bytes, overwrites `len(data)` bytes at
`offset` preserving all other prior bytes, and returns the new length. -/
theorem setrange_full_case_analysis :
    (∀ (db : Db) (k : Key) (off : Int) (v : Bytes), off < 0 →
      setrangeCommand db k off v = (SetrangeRes.invalidOffset, db)) ∧
    (∀ (db : Db) (k : Key) (off : Int), 0 ≤ off → lookupKey db k = none →
      setrangeCommand db k off [] = (SetrangeRes.len 0, db)) ∧
    (∀ (db : Db) (k : Key) (off : Int) (e : Entry) (o : StrObj), 0 ≤ off →
      lookupKey db k = some e → e.obj = RObj.str o →
      setrangeCommand db k off [] = (SetrangeRes.len (stringObjectLen o), db)) ∧
    (∀ (db : Db) (k : Key) (off : Int) (v : Bytes), 0 ≤ off → v ≠ [] →
      checkStringLength (off + (v.length : Int)) = true →
      (lookupKey db k = none →
        setrangeCommand db k off v = (SetrangeRes.tooLong, db)) ∧
      (∀ (e : Entry) (o : StrObj), lookupKey db k = some e → e.obj = RObj.str o →
        setrangeCommand db k off v = (SetrangeRes.tooLong, db))) ∧
    (∀ (db : Db) (k : Key) (off : Int) (v : Bytes), 0 ≤ off → v ≠ [] →
      lookupKey db k = none → checkStringLength (off + (v.length : Int)) = false →
      setrangeCommand db k off v =
        (SetrangeRes.len (off.toNat + v.length),
         dbAdd db k (RObj.str ⟨StrVal.rawVal (List.replicate off.toNat zeroChar ++ v), 1⟩))) ∧
    (∀ (db : Db) (k : Key) (off : Int) (v : Bytes) (e : Entry) (o : StrObj),
      0 ≤ off → v ≠ [] → lookupKey db k = some e → e.obj = RObj.str o →
      checkStringLength (off + (v.length : Int)) = false →
      ∃ bs : Bytes,
        (setrangeCommand db k off v).1 = SetrangeRes.len bs.length ∧
        lookupKey (setrangeCommand db k off v).2 k =
          some ⟨RObj.str ⟨StrVal.rawVal bs, 1⟩, e.expireAt⟩ ∧
        bs.length = max (stringObjectLen o) (off.toNat + v.length) ∧
        (∀ i, i < off.toNat →
          bs[i]? = if i < (objBytes o).length then (objBytes o)[i]? else some zeroChar) ∧
        (∀ j, j < v.length → bs[off.toNat + j]? = v[j]?) ∧
        (∀ i, off.toNat + v.length ≤ i → bs[i]? = (objBytes o)[i]?)) := by
  refine ⟨?_, ?_, ?_, ?_, ?_, ?_⟩
  · intro db k off v hoff
    unfold setrangeCommand
    rw [if_pos hoff]
  · intro db k off hoff hlk
    unfold setrangeCommand
    rw [if_neg (not_lt.mpr hoff), hlk]
    rfl
  · intro db k off e o hoff hlk hobj
    unfold setrangeCommand
    rw [if_neg (not_lt.mpr hoff), hlk]
    dsimp only
    rw [hobj]
    rfl
  · intro db k off v hoff hv hchk
    have hvlen : ¬ v.length = 0 := by
      simpa using fun hh => hv (List.length_eq_zero.mp hh)
    constructor
    · intro hlk
      unfold setrangeCommand
      rw [if_neg (not_lt.mpr hoff), hlk]
      dsimp only
      rw [if_neg hvlen, hchk]
      rfl
    · intro e o hlk hobj
      unfold setrangeCommand
      rw [if_neg (not_lt.mpr hoff), hlk]
      dsimp only
      rw [hobj]
      dsimp only
      rw [if_neg hvlen, hchk]
      rfl
  · intro db k off v hoff hv hlk hchk
    have hvlen : ¬ v.length = 0 := by
      simpa using fun hh => hv (List.length_eq_zero.mp hh)
    unfold setrangeCommand
    rw [if_neg (not_lt.mpr hoff), hlk]
    dsimp only
    rw [if_neg hvlen, hchk]
    rw [writeAt_replicate_zero]
    simp only [List.length_append, List.length_replicate]
    rfl
  · intro db k off v e o hoff hv hlk hobj hchk
    have hvlen : ¬ v.length = 0 := by
      simpa using fun hh => hv (List.length_eq_zero.mp hh)
    unfold setrangeCommand
    rw [if_neg (not_lt.mpr hoff), hlk]
    dsimp only
    rw [hobj]
    dsimp only
    rw [if_neg hvlen, hchk]
    rw [objBytes_unshare]
    set total := off.toNat + v.length with htotal
    set grown := growZero (objBytes o) total with hgrown
    have hglen : grown.length = max (objBytes o).length total := growZero_length _ _
    have hfits : off.toNat + v.length ≤ grown.length := by
      rw [hglen]; omega
    have hoffle : off.toNat ≤ grown.length := by omega
    refine ⟨writeAt grown off.toNat v, rfl, ?_, ?_, ?_, ?_, ?_⟩
    · exact lookup_dbOverwrite_self db k e _ hlk
    · rw [writeAt_length _ _ _ hfits, hglen]
      rfl
    · intro i hi
      rw [writeAt_getElem_lt _ _ _ _ hi hoffle]
      by_cases hio : i < (objBytes o).length
      · rw [if_pos hio, growZero_getElem_lt _ _ _ hio]
      · rw [if_neg hio, growZero_getElem_pad _ _ _ (by omega) (by omega)]
    · intro j hj
      exact writeAt_getElem_mid _ _ _ _ hj hoffle
    · intro i hi
      rw [writeAt_getElem_ge _ _ _ _ hi hoffle]
      by_cases hio : i < (objBytes o).length
      · exact growZero_getElem_lt _ _ _ hio
      · rw [List.getElem?_eq_none (l := objBytes o) (by omega),
          List.getElem?_eq_none (by rw [hglen]; omega)]

/-- A fresh store for the C5 witness. -/
def dbEmpty : Db := []

/-- Witness for C5: `SETRANGE k 5 "hi"` on an absent key creates a
7-byte value whose first five bytes are zero and whose last two are
`"hi"`. -/
theorem setrange_full_case_analysis_witness :
    setrangeCommand dbEmpty "k".toList 5 "hi".toList =
      (SetrangeRes.len 7,
       dbAdd dbEmpty "k".toList
         (RObj.str ⟨StrVal.rawVal (List.replicate 5 zeroChar ++ "hi".toList), 1⟩)) :=
  setrange_full_case_analysis.2.2.2.2.1 dbEmpty "k".toList 5 "hi".toList
    (by decide) (by decide) (by decide) (by decide)

theorem ite_neg_zero (x : Int) : (if x < 0 then 0 else x) = max x 0 := by
  rcases lt_or_ge x 0 with h | h
  · rw [if_pos h, max_eq_right h.le]
  · rw [if_neg (not_lt.mpr h), max_eq_left h]

theorem ite_clamp_end (x L : Int) : (if x ≥ L then L - 1 else x) = min x (L - 1) := by
  rcases le_or_lt L x with h | h
  · rw [if_pos h, min_eq_right (by omega)]
  · rw [if_neg (by omega), min_eq_left (by omega)]

/-! ## C3: the INCRBYFLOAT replication rewrite -/

/-- Fixture: a key holding the text `"10.50"`. -/
def dbTenFifty : Db :=
  [("k".toList, ⟨RObj.str ⟨StrVal.rawVal "10.50".toList, 1⟩, none⟩)]

/-- C3: among all the string commands only INCRBYFLOAT ever emits a
replication rewrite; a successful INCRBYFLOAT emits, along with its
reply, a rewrite equal to an unconditional `SET` of the exact resulting
text to the same key (which is also the text stored); every failing
INCRBYFLOAT emits no rewrite and leaves the store unchanged; and
`INCRBYFLOAT k 5.0e3` on a key holding `"10.50"` yields `"5010.5"` with
a rewrite of `SET k "5010.5"`. -/
theorem incrbyfloat_rewrite_policy :
    (∀ (now : Int) (db : Db) (c : Cmd),
      (runCmd now db c).rewrite.isSome = true →
      ∃ k d, c = Cmd.incrbyfloatC k d) ∧
    (∀ (db : Db) (k : Key) (d : Bytes) (t : Bytes) (dbx : Db)
        (rw : Option (Key × Bytes)),
      incrbyfloatCommand db k d = ⟨IncrFloatRes.ok t, dbx, rw⟩ →
      rw = some (k, t) ∧
      ∃ e, lookupKey dbx k = some e ∧ e.obj = RObj.str ⟨StrVal.rawVal t, 1⟩) ∧
    (∀ (db : Db) (k : Key) (d : Bytes) (r : IncrFloatRes) (dbx : Db)
        (rw : Option (Key × Bytes)),
      incrbyfloatCommand db k d = ⟨r, dbx, rw⟩ →
      (∀ t, r ≠ IncrFloatRes.ok t) →
      rw = none ∧ dbx = db) ∧
    incrbyfloatCommand dbTenFifty "k".toList "5.0e3".toList =
      ⟨IncrFloatRes.ok "5010.5".toList,
       [("k".toList, ⟨RObj.str ⟨StrVal.rawVal "5010.5".toList, 1⟩, none⟩)],
       some ("k".toList, "5010.5".toList)⟩ := by
  refine ⟨?_, ?_, ?_, by decide⟩
  · intro now db c h
    cases c <;> first
      | exact ⟨_, _, rfl⟩
      | simp [runCmd] at h
  · intro db k d t dbx rw h
    unfold incrbyfloatCommand at h
    split at h
    · simp at h
    · split at h
      · simp at h
      · split at h
        · simp at h
        · split at h
          · simp at h
          · simp only [IncrFloatOut.mk.injEq, IncrFloatRes.ok.injEq] at h
            obtain ⟨ht, hdb, hrw⟩ := h
            subst ht
            refine ⟨hrw.symm, ?_⟩
            rcases hent : lookupKey db k with _ | e
            · rw [hent] at hdb
              simp only [Option.isSome_none, Bool.false_eq_true, if_false] at hdb
              exact ⟨⟨RObj.str ⟨StrVal.rawVal _, 1⟩, none⟩,
                hdb ▸ lookup_dbAdd_self db k _, rfl⟩
            · rw [hent] at hdb
              simp only [Option.isSome_some, if_true] at hdb
              exact ⟨⟨RObj.str ⟨StrVal.rawVal _, 1⟩, e.expireAt⟩,
                hdb ▸ lookup_dbOverwrite_self db k e _ hent, rfl⟩
  · intro db k d r dbx rw h hfail
    unfold incrbyfloatCommand at h
    split at h
    · simp only [IncrFloatOut.mk.injEq] at h
      exact ⟨h.2.2.symm, h.2.1.symm⟩
    · split at h
      · simp only [IncrFloatOut.mk.injEq] at h
        exact ⟨h.2.2.symm, h.2.1.symm⟩
      · split at h
        · simp only [IncrFloatOut.mk.injEq] at h
          exact ⟨h.2.2.symm, h.2.1.symm⟩
        · split at h
          · simp only [IncrFloatOut.mk.injEq] at h
            exact ⟨h.2.2.symm, h.2.1.symm⟩
          · simp only [IncrFloatOut.mk.injEq] at h
            exact absurd h.1.symm (hfail _)

/-- Witness for C3: the success clause instantiated on the
documentation example. -/
theorem incrbyfloat_rewrite_policy_witness :
    some ("k".toList, "5010.5".toList) = some ("k".toList, "5010.5".toList) ∧
    ∃ e, lookupKey
        [("k".toList, ⟨RObj.str ⟨StrVal.rawVal "5010.5".toList, 1⟩, none⟩)]
        "k".toList = some e ∧
      e.obj = RObj.str ⟨StrVal.rawVal "5010.5".toList, 1⟩ :=
  incrbyfloat_rewrite_policy.2.1 dbTenFifty "k".toList "5.0e3".toList
    "5010.5".toList
    [("k".toList, ⟨RObj.str ⟨StrVal.rawVal "5010.5".toList, 1⟩, none⟩)]
    (some ("k".toList, "5010.5".toList)) (by decide)

/-! ## C4: GETRANGE index normalization -/

/-- The documentation example value; its byte length is 16. -/
def strThis : Bytes := "This is a string".toList

/-- A store holding the documentation example value under `"k"`. -/
def dbThis : Db :=
  [("k".toList, ⟨RObj.str ⟨StrVal.rawVal strThis, 1⟩, none⟩)]

/-- C4 counterexample: the example value `"This is a string"` has byte
length 16, not 17 as the claim asserts. -/
theorem getrange_example_length_counterexample :
    stringObjectLen ⟨StrVal.rawVal strThis, 1⟩ = 16 ∧
    ¬ stringObjectLen ⟨StrVal.rawVal strThis, 1⟩ = 17 := by
  decide

/-- C4 (amended: the example value has length 16): for every stored
string value, GETRANGE returns empty when the original indices are both
negative with `start > end`; otherwise negative indices are translated
by adding the length, still-negative ones clamp to 0, `end` clamps to
`length - 1`, and the result is empty when `start > end` or the length
is 0, else the inclusive slice — with the four documentation examples
on `"This is a string"`. -/
theorem getrange_index_normalization :
    (∀ (db : Db) (k : Key) (e : Entry) (o : StrObj) (s0 e0 : Int),
      lookupKey db k = some e → e.obj = RObj.str o →
      getrangeCommand db k s0 e0 = GetrangeRes.bulk (
        if s0 < 0 ∧ e0 < 0 ∧ s0 > e0 then []
        else
          let L : Int := ((objBytes o).length : Int)
          let s1 := max (if s0 < 0 then L + s0 else s0) 0
          let e1 := min (max (if e0 < 0 then L + e0 else e0) 0) (L - 1)
          if s1 > e1 ∨ L = 0 then []
          else ((objBytes o).drop s1.toNat).take (e1 - s1 + 1).toNat)) ∧
    getrangeCommand dbThis "k".toList 0 3 = GetrangeRes.bulk "This".toList ∧
    getrangeCommand dbThis "k".toList (-3) (-1) = GetrangeRes.bulk "ing".toList ∧
    getrangeCommand dbThis "k".toList 0 (-1) = GetrangeRes.bulk strThis ∧
    getrangeCommand dbThis "k".toList 10 100 = GetrangeRes.bulk "string".toList := by
  refine ⟨?_, by decide, by decide, by decide, by decide⟩
  intro db k e o s0 e0 hlk hobj
  unfold getrangeCommand
  rw [hlk]
  dsimp only
  rw [hobj]
  dsimp only
  rw [ite_neg_zero, ite_neg_zero, ite_clamp_end]
  by_cases h1 : s0 < 0 ∧ e0 < 0 ∧ s0 > e0
  · rw [if_pos h1, if_pos h1]
  · rw [if_neg h1, if_neg h1, apply_ite GetrangeRes.bulk]

/-- Witness for C4 on the documentation store, at indices (0, 3). -/
theorem getrange_index_normalization_witness :
    getrangeCommand dbThis "k".toList 0 3 = GetrangeRes.bulk "This".toList := by
  have h := getrange_index_normalization.1 dbThis "k".toList
    ⟨RObj.str ⟨StrVal.rawVal strThis, 1⟩, none⟩ ⟨StrVal.rawVal strThis, 1⟩ 0 3
    (by decide) (by decide)
  rw [h]
  decide

/-! ## MSET fold lemmas -/

theorem lookup_msetFold_notmem :
    ∀ (pairs : List (Bytes × Bytes)) (db : Db) (k : Key),
      (∀ q ∈ pairs, q.1 ≠ k) →
      lookupKey (pairs.foldl (fun d q => setKey d q.1 (RObj.str (classify q.2))) db) k =
        lookupKey db k := by
  intro pairs
  induction pairs with
  | nil => intro db k _; rfl
  | cons p t ih =>
    intro db k hne
    have hp : p.1 ≠ k := hne p (List.mem_cons_self p t)
    have ht : ∀ q ∈ t, q.1 ≠ k := fun q hq => hne q (List.mem_cons_of_mem p hq)
    calc lookupKey ((p :: t).foldl (fun d q => setKey d q.1 (RObj.str (classify q.2))) db) k
        = lookupKey (t.foldl (fun d q => setKey d q.1 (RObj.str (classify q.2)))
            (setKey db p.1 (RObj.str (classify p.2)))) k := rfl
      _ = lookupKey (setKey db p.1 (RObj.str (classify p.2))) k := ih _ k ht
      _ = lookupKey db k := lookup_dbSet_ne db p.1 k _ (fun hh => hp hh.symm)

theorem lookup_msetFold_mem :
    ∀ (pairs : List (Bytes × Bytes)) (db : Db),
      (pairs.map Prod.fst).Nodup →
      ∀ q ∈ pairs,
        lookupKey (pairs.foldl (fun d q => setKey d q.1 (RObj.str (classify q.2))) db) q.1 =
          some ⟨RObj.str (classify q.2), none⟩ := by
  intro pairs
  induction pairs with
  | nil => intro db _ q hq; cases hq
  | cons p t ih =>
    intro db hnd q hq
    rw [List.map_cons, List.nodup_cons] at hnd
    have hnd' := hnd
    rcases List.mem_cons.mp hq with rfl | hmem
    · have hnot : ∀ r ∈ t, r.1 ≠ q.1 := by
        intro r hr heq
        exact hnd'.1 (heq ▸ List.mem_map_of_mem Prod.fst hr)
      calc lookupKey ((q :: t).foldl (fun d r => setKey d r.1 (RObj.str (classify r.2))) db) q.1
          = lookupKey (t.foldl (fun d r => setKey d r.1 (RObj.str (classify r.2)))
              (setKey db q.1 (RObj.str (classify q.2)))) q.1 := rfl
        _ = lookupKey (setKey db q.1 (RObj.str (classify q.2))) q.1 :=
            lookup_msetFold_notmem t _ q.1 hnot
        _ = some ⟨RObj.str (classify q.2), none⟩ := lookup_dbSet_self db q.1 _
    · exact ih _ hnd'.2 q hmem

/-! ## C6: MSETNX is all-or-nothing -/

/-- C6: under the NX flag the batch assignment first probes every target
key: if any of them exists the whole batch aborts with the failure reply
and the store is returned unchanged (no partial application); only when
none exists is every pair assigned (each key then holds its classified
value with no TTL) and success reported. -/
theorem msetnx_all_or_nothing :
    ∀ (db : Db) (args : List Bytes), (args.length + 1) % 2 = 1 →
      ((∃ q ∈ toPairs args, (lookupKey db q.1).isSome = true) →
        msetGenericCommand db true args = (MsetRes.nxAbort, db)) ∧
      ((∀ q ∈ toPairs args, lookupKey db q.1 = none) →
        (msetGenericCommand db true args).1 = MsetRes.okMsetnx ∧
        (((toPairs args).map Prod.fst).Nodup →
          ∀ q ∈ toPairs args,
            lookupKey (msetGenericCommand db true args).2 q.1 =
              some ⟨RObj.str (classify q.2), none⟩)) := by
  intro db args hpar
  constructor
  · rintro ⟨q, hq, hsome⟩
    unfold msetGenericCommand
    rw [if_neg (by omega)]
    dsimp only
    rw [if_pos ⟨rfl, List.any_eq_true.mpr ⟨q, hq, hsome⟩⟩]
  · intro hnone
    have hany : ((toPairs args).any fun p => (lookupKey db p.1).isSome) = false := by
      rw [List.any_eq_false]
      intro q hq
      simp [hnone q hq]
    unfold msetGenericCommand
    rw [if_neg (by omega)]
    dsimp only
    rw [if_neg (by simp [hany])]
    exact ⟨rfl, fun hnd q hq => lookup_msetFold_mem (toPairs args) db hnd q hq⟩

/-- A store where `"b"` already exists, for the MSETNX witness. -/
def dbWithB : Db :=
  [("b".toList, ⟨RObj.str ⟨StrVal.rawVal "old".toList, 1⟩, none⟩)]

/-- Witness for C6: `MSETNX a 1 b 2` with `"b"` present aborts with the
nx-failure reply and the store — so neither `a` nor `b` — is modified. -/
theorem msetnx_all_or_nothing_witness :
    msetGenericCommand dbWithB true
        ["a".toList, "1".toList, "b".toList, "2".toList] =
      (MsetRes.nxAbort, dbWithB) :=
  (msetnx_all_or_nothing dbWithB
      ["a".toList, "1".toList, "b".toList, "2".toList] (by decide)).1
    ⟨("b".toList, "2".toList), by decide, by decide⟩

/-! ## C2 witness -/

/-- Witness for C2, instantiating the universally quantified part at the
store holding the 64-bit maximum and delta 1. -/
theorem incrDecr_overflow_checked_before_addition_witness :
    ((incrDecrCommand dbMaxInt "k".toList 1).1 = IncrRes.overflow ↔
      ¬(LLONG_MIN ≤ (9223372036854775807 : Int) + 1 ∧
        (9223372036854775807 : Int) + 1 ≤ LLONG_MAX)) ∧
    ((incrDecrCommand dbMaxInt "k".toList 1).1 = IncrRes.overflow →
      (incrDecrCommand dbMaxInt "k".toList 1).2 = dbMaxInt) :=
  incrDecr_overflow_checked_before_addition.1 dbMaxInt "k".toList 1
    9223372036854775807 (by decide) (by decide) (by decide) (by decide)
    (by decide) (by decide)

/-! ## C8: MSET/MSETNX argument parity -/

/-- C8 counterexample: `MSET k v` has an odd total argument count
including the command name (3), yet the command succeeds and does modify
the store — the claim's "odd total argument count … yields the
WrongArgCount error" is the wrong parity. -/
theorem mset_odd_argc_counterexample :
    (["k".toList, "v".toList].length + 1) % 2 = 1 ∧
    (msetGenericCommand [] false ["k".toList, "v".toList]).1 = MsetRes.okMset ∧
    (msetGenericCommand [] false ["k".toList, "v".toList]).1 ≠ MsetRes.wrongArgCount ∧
    (msetGenericCommand [] false ["k".toList, "v".toList]).2 ≠ [] := by decide

/-- C8 (amended): the supplied key/value item count must be even, which
makes the total argument count including the command name odd; it is an
**even** total count (odd item count) that yields the wrong-argument-count
error with no key modified, and an odd total count passes the parity
check. -/
theorem mset_parity_requires_even_items :
    ∀ (db : Db) (nx : Bool) (args : List Bytes),
      ((args.length + 1) % 2 = 0 →
        msetGenericCommand db nx args = (MsetRes.wrongArgCount, db)) ∧
      ((args.length + 1) % 2 = 1 →
        (msetGenericCommand db nx args).1 ≠ MsetRes.wrongArgCount) := by
  intro db nx args
  constructor
  · intro h
    unfold msetGenericCommand
    rw [if_pos h]
  · intro h
    unfold msetGenericCommand
    rw [if_neg (by omega)]
    dsimp only
    split
    · simp
    · cases nx <;> simp

/-- Witness for C8: a lone key (even total count 2) is rejected with the
store untouched, while a proper pair (odd total count 3) is not. -/
theorem mset_parity_requires_even_items_witness :
    msetGenericCommand [] true ["k".toList] = (MsetRes.wrongArgCount, []) ∧
    (msetGenericCommand [] false ["k".toList, "v".toList]).1 ≠ MsetRes.wrongArgCount :=
  ⟨(mset_parity_requires_even_items [] true ["k".toList]).1 (by decide),
   (mset_parity_requires_even_items [] false ["k".toList, "v".toList]).2 (by decide)⟩

/-! ## C9: MGET never raises WrongType -/

/-- C9: MGET returns exactly one reply per requested key, in argument
order; a present string value is returned, while an absent key and a key
holding a non-string value both produce the null marker — no reply is a
type error. -/
theorem mget_one_null_or_value_per_key :
    ∀ (db : Db) (ks : List Key),
      (mgetCommand db ks).length = ks.length ∧
      ∀ (i : Nat), i < ks.length → ∀ k, ks[i]? = some k →
        (lookupKey db k = none → (mgetCommand db ks)[i]? = some none) ∧
        (∀ e, lookupKey db k = some e → e.obj = RObj.other →
          (mgetCommand db ks)[i]? = some none) ∧
        (∀ e o, lookupKey db k = some e → e.obj = RObj.str o →
          (mgetCommand db ks)[i]? = some (some (objBytes o))) := by
  intro db ks
  refine ⟨by simp [mgetCommand], ?_⟩
  intro i hi k hk
  refine ⟨fun hnone => ?_, fun e he hobj => ?_, fun e o he hobj => ?_⟩
  · simp [mgetCommand, hk, hnone]
  · simp [mgetCommand, hk, he, hobj]
  · simp [mgetCommand, hk, he, hobj]

/-- A store with one string key and one key of another type, for the
MGET witness. -/
def dbMixed : Db :=
  [("s".toList, ⟨RObj.str ⟨StrVal.rawVal "sv".toList, 1⟩, none⟩),
   ("h".toList, ⟨RObj.other, none⟩)]

/-- Witness for C9 on a store with a string key, a non-string key and an
absent key queried in one MGET. -/
theorem mget_one_null_or_value_per_key_witness :
    (mgetCommand dbMixed ["s".toList, "h".toList, "x".toList]).length = 3 ∧
    (mgetCommand dbMixed ["s".toList, "h".toList, "x".toList])[1]? = some none ∧
    (mgetCommand dbMixed ["s".toList, "h".toList, "x".toList])[2]? = some none ∧
    (mgetCommand dbMixed ["s".toList, "h".toList, "x".toList])[0]? =
      some (some "sv".toList) :=
  ⟨(mget_one_null_or_value_per_key dbMixed ["s".toList, "h".toList, "x".toList]).1,
   ((mget_one_null_or_value_per_key dbMixed ["s".toList, "h".toList, "x".toList]).2
      1 (by decide) "h".toList (by decide)).2.1 ⟨RObj.other, none⟩ (by decide) (by decide),
   ((mget_one_null_or_value_per_key dbMixed ["s".toList, "h".toList, "x".toList]).2
      2 (by decide) "x".toList (by decide)).1 (by decide),
   ((mget_one_null_or_value_per_key dbMixed ["s".toList, "h".toList, "x".toList]).2
      0 (by decide) "s".toList (by decide)).2.2 ⟨RObj.str ⟨StrVal.rawVal "sv".toList, 1⟩, none⟩
      ⟨StrVal.rawVal "sv".toList, 1⟩ (by decide) (by decide)⟩
